import Mathlib

/-!
Verification of the aparts OLX-to-Telegram ad forwarder.

The development shallowly embeds the two source modules:

* `aparts.py` — the listing walker (`get_ads`), the incremental-discovery
  driver (`post_new_ads`), the main poll loop, the delivery payload builder
  (`Ad.to_send_query`) and the MarkdownV2 escaping (`Ad._markdown_escape`);
* `highlights.py` — the highlight rule engine (`ParamRule`, `PropRule`,
  `parse_rules`).

Python strings are modeled as `List Char`, `datetime` values as integers
(only their linear order and their ISO rendering matter to the code under
study; the rendering `datetime.isoformat` is an external library call and is
passed in as a function parameter where a theorem needs it).  Fallible
Python code (raised exceptions) is modeled with `Except`.
-/

/-- Python strings are modeled as lists of characters. -/
abbrev Str := List Char

/-- One listing entry, `@dataclass class Ad` of aparts.py.  The two
`datetime` fields are modeled by integers carrying their temporal order. -/
structure Ad where
  title : Str
  url : Str
  price : Str
  created : Int
  refreshed : Int
  is_promoted : Bool
  photo_urls : List Str
  highlights : Str
  deriving DecidableEq, Repr

/-! ## Listing walker and dispatch driver (`post_new_ads`, aparts.py lines 163-196)

The fetch of a listing page and the JSON extraction are external
collaborators; the walker is modeled directly on the stream of `Ad` values
the generator `get_ads` yields, and on the page structure
`List (List Ad)` where the page-fetch count matters. -/

/-- The candidate-collection loop of `post_new_ads` (lines 169-175) run over
the flattened stream of ads produced by the `get_ads` generator:

    for ad in get_ads():
        if not ad.is_promoted and ad.refreshed <= max_refresh_time:
            break
        if ad.refreshed > max_refresh_time:
            new_ads.append(ad)
-/
def collectNew (w : Int) : List Ad → List Ad
  | [] => []
  | a :: rest =>
    if a.is_promoted = false ∧ a.refreshed ≤ w then []
    else if w < a.refreshed then a :: collectNew w rest
    else collectNew w rest

/-- Whether a page contains an ad that triggers the `break` in
`post_new_ads`: an organic (non-promoted) ad with refresh time at or below
the watermark. -/
def hasStop (w : Int) (pg : List Ad) : Bool :=
  pg.any (fun a => !a.is_promoted && decide (a.refreshed ≤ w))

/-- Number of HTTP page fetches performed by the `get_ads` generator
(lines 110-147) when its consumer is the collection loop of
`post_new_ads`.  The generator fetches page 1, yields the page's ads, and
fetches the next page only when the consumer did not `break` on the current
page and the current page is not the last one (`totalPages`, modeled as the
length of the page list). -/
def pagesFetched (w : Int) : List (List Ad) → Nat
  | [] => 0
  | pg :: rest => if hasStop w pg then 1 else 1 + pagesFetched w rest

/-- The delivery iteration order of `post_new_ads` line 182:
`for ad in reversed(new_ads)`. -/
def deliveryOrder (w : Int) (l : List Ad) : List Ad :=
  (collectNew w l).reverse

/-- The watermark-advancing delivery loop of `post_new_ads` (lines 182-194),
restricted to its durable effects.  Given the watermark held at loop entry
and the list of ads delivered (in delivery order), it returns the watermark
held at loop exit together with the trace of values written to the store:

    if ad.refreshed > max_refresh_time:
        max_refresh_time = ad.refreshed
        update_max_refresh_time(ad.refreshed)

A delivery failure aborts the loop, which is the same as running the loop
on the prefix of ads that were successfully delivered; the theorems
quantify over arbitrary ad lists, so every such prefix is an instance. -/
def deliverRun (w : Int) : List Ad → Int × List Int
  | [] => (w, [])
  | a :: rest =>
    if w < a.refreshed then
      ((deliverRun a.refreshed rest).1, a.refreshed :: (deliverRun a.refreshed rest).2)
    else deliverRun w rest

/-- A sequence of poll cycles.  Each cycle reads the stored watermark
(`get_max_refresh_time`), runs its delivery loop, and the next cycle starts
from the value the previous cycle last persisted (this process is the sole
writer of the key).  The cycle's delivered ad list is arbitrary, which also
covers cycles that crashed mid-delivery (their list is the delivered
prefix).  Returns the final watermark and the concatenated write trace. -/
def runCycles (w : Int) : List (List Ad) → Int × List Int
  | [] => (w, [])
  | ads :: rest =>
    ((runCycles (deliverRun w ads).1 rest).1,
      (deliverRun w ads).2 ++ (runCycles (deliverRun w ads).1 rest).2)

/-- The `__main__` loop of aparts.py (lines 199-204):

    while True:
        post_new_ads()
        time.sleep(POLL_INTERVAL)

There is no `try`/`except`: an exception raised inside `post_new_ads`
propagates and terminates the process.  `outcomes` is a finite schedule
telling, for each would-be cycle, whether `post_new_ads` returns normally
(`true`) or raises (`false`); the result is how many cycles actually
start. -/
def cyclesRun : List Bool → Nat
  | [] => 0
  | ok :: rest => if ok then 1 + cyclesRun rest else 1

/-! ## Highlight rule engine (highlights.py) -/

/-- Python exceptions raised by the rule engine.  `PropRule.__init__`'s
`raise Exception(f'... "{self.match}"')` actually raises an
`AttributeError` while formatting the message, because the instance has no
attribute `match` (the field is `_match` and is not yet assigned); either
way an exception leaves `__init__`, which is all the claims depend on. -/
inductive PyErr where
  | exception : Str → PyErr
  | keyError : PyErr
  | typeError : PyErr
  | attributeError : PyErr
  deriving DecidableEq, Repr

/-- A `normalizedValue` of an OLX parameter: a scalar or a list of values
(scalars are modeled as strings, the only shape the value maps key on). -/
inductive NormValue where
  | scalar : Str → NormValue
  | vlist : List Str → NormValue
  deriving DecidableEq, Repr

/-- One entry of `olxAd['params']`: a `{key, normalizedValue}` pair. -/
structure Param where
  key : Str
  normalizedValue : NormValue
  deriving DecidableEq, Repr

/-- The raw nested ad document addressed by `PropRule`'s dotted paths:
a string leaf or a string-keyed object. -/
inductive Doc where
  | str : Str → Doc
  | obj : List (Str × Doc) → Doc

/-- The raw ad document as seen by the two rule types: `params` models
`olxAd['params']` (read by `ParamRule`), `root` models the same dict as a
generic tree (walked by `PropRule._get_prop_value`). -/
structure OlxDoc where
  params : List Param
  root : Doc

/-- Python `dict.get(k, default)` over an insertion-ordered table. -/
def dictGet (m : List (Str × Str)) (k : Str) (d : Str) : Str :=
  match m.lookup k with
  | some v => v
  | none => d

/-- `ParamRule.extract` (highlights.py lines 9-19): scan the param list;
for every param whose key matches, look its normalized value (each member,
for list values) up in the value map, appending found tags; `dict.get`'s
default makes unmapped values contribute the empty string. -/
def paramExtract (key : Str) (valueMap : List (Str × Str)) (d : OlxDoc) : Str :=
  d.params.foldl
    (fun hs param =>
      if param.key = key then
        match param.normalizedValue with
        | NormValue.vlist vs => hs ++ (vs.map (fun v => dictGet valueMap v [])).flatten
        | NormValue.scalar v => hs ++ dictGet valueMap v []
      else hs)
    []

/-- The two comparators a `PropRule` can be configured with. -/
inductive MatchKind where
  | contains
  | exact
  deriving DecidableEq, Repr

/-- Case folding used to model `re.IGNORECASE`. -/
def lowerStr (s : Str) : Str := s.map Char.toLower

/-- Contiguous-substring test: `needle` occurs somewhere in the haystack. -/
def strContains (needle : Str) : Str → Bool
  | [] => needle.isPrefixOf []
  | c :: rest => needle.isPrefixOf (c :: rest) || strContains needle rest

/-- Models `re.search(expected, actual, re.IGNORECASE)` for literal
patterns: a case-insensitive substring test (no claim exercises regex
metacharacters). -/
def ciSearch (expected actual : Str) : Bool :=
  strContains (lowerStr expected) (lowerStr actual)

/-- `PropRule._get_prop_value` (lines 42-46): successive `node[path_part]`
indexing from the document root.  A missing key raises `KeyError`; indexing
a string leaf with a string raises `TypeError`. -/
def resolvePath : Doc → List Str → Except PyErr Doc
  | d, [] => Except.ok d
  | Doc.obj fields, p :: rest =>
    match fields.lookup p with
    | some child => resolvePath child rest
    | none => Except.error PyErr.keyError
  | Doc.str _, _ :: _ => Except.error PyErr.typeError

/-- One comparator application `self._match(value, prop_value)`.  Python's
`==` between a string pattern and a non-string node is `False`;
`re.search` on a non-string node raises `TypeError`. -/
def applyMatch : MatchKind → Str → Doc → Except PyErr Bool
  | MatchKind.exact, expected, Doc.str actual => Except.ok (actual == expected)
  | MatchKind.exact, _, Doc.obj _ => Except.ok false
  | MatchKind.contains, expected, Doc.str actual => Except.ok (ciSearch expected actual)
  | MatchKind.contains, _, Doc.obj _ => Except.error PyErr.typeError

/-- `PropRule.extract` (lines 33-40): resolve the path once, then walk the
value map in table order, appending the tag of every matching pattern. -/
def propExtract (path : List Str) (mk : MatchKind) (valueMap : List (Str × Str))
    (d : OlxDoc) : Except PyErr Str := do
  let node ← resolvePath d.root path
  valueMap.foldlM
    (fun hs pv => do
      let b ← applyMatch mk pv.1 node
      pure (if b then hs ++ pv.2 else hs))
    []

/-- The closed polymorphic rule variant: `ParamRule` or a fully constructed
`PropRule` (path already split on dots, comparator already validated). -/
inductive Rule where
  | param : Str → List (Str × Str) → Rule
  | prop : List Str → MatchKind → List (Str × Str) → Rule

/-- The single capability both rule classes expose: `rule.extract(olxAd)`. -/
def Rule.extract : Rule → OlxDoc → Except PyErr Str
  | Rule.param k vm, d => Except.ok (paramExtract k vm d)
  | Rule.prop path mk vm, d => propExtract path mk vm d

/-- `PropRule.__init__` (lines 23-31): split the dotted path, then select
the comparator; an unrecognized comparator raises (see `PyErr`). -/
def propRuleInit (path : Str) (matchType : Str) (valueMap : List (Str × Str)) :
    Except PyErr Rule :=
  if matchType = "contains".data then
    Except.ok (Rule.prop (path.splitOn '.') MatchKind.contains valueMap)
  else if matchType = "exact".data then
    Except.ok (Rule.prop (path.splitOn '.') MatchKind.exact valueMap)
  else
    Except.error PyErr.attributeError

/-- One rule descriptor from the `HIGHLIGHT_RULES` JSON configuration.
`type`, `key`, `path`, `matchType` and `valueMap` model the dict entries
`rule_config['type']`, `['key']`, `['path']`, `['match']`, `['valueMap']`. -/
structure RuleConfig where
  type : Str
  key : Str
  path : Str
  matchType : Str
  valueMap : List (Str × Str)

/-- The body of the `for rule_config in config` loop of `parse_rules`
(highlights.py lines 53-61), accumulating into `rules`. -/
def parseGo : List RuleConfig → List Rule → Except PyErr (List Rule)
  | [], rules => Except.ok rules
  | rc :: rest, rules =>
    if rc.type = "param".data then
      parseGo rest (rules ++ [Rule.param rc.key rc.valueMap])
    else if rc.type = "prop".data then
      match propRuleInit rc.path rc.matchType rc.valueMap with
      | Except.ok r => parseGo rest (rules ++ [r])
      | Except.error e => Except.error e
    else
      Except.error (PyErr.exception "unexpected rule type".data)

/-- `parse_rules` (highlights.py lines 49-63). -/
def parse_rules (config : List RuleConfig) : Except PyErr (List Rule) :=
  if config.length = 0 then Except.ok [] else parseGo config []

/-- The per-ad aggregation loop of `get_ads` (aparts.py lines 129-131):

    highlights = ''
    for rule in HIGHLIGHT_RULES:
        highlights += rule.extract(olxAd)
-/
def concatHighlights (rules : List Rule) (d : OlxDoc) : Except PyErr Str :=
  rules.foldlM
    (fun hs r => do
      let t ← r.extract d
      pure (hs ++ t))
    []

/-- The highlight string stored on the constructed `Ad`
(aparts.py line 141): `''.join(set(highlights))`.  Python's `set` iterates
its elements — the characters of the concatenated string — in an
unspecified order; the model picks one concrete enumeration
(`List.dedup`), and the theorem about it only states order-independent
facts (same character membership, no duplicates). -/
def adHighlights (rules : List Rule) (d : OlxDoc) : Except PyErr Str :=
  (concatHighlights rules d).map List.dedup

/-- Module startup followed by the main loop (aparts.py lines 34-36 and
199-204): a configured `HIGHLIGHT_RULES` JSON is parsed at import time,
before the poll loop starts; if parsing raises, the process dies having
run zero poll cycles. -/
def programCyclesRun (cfg : List RuleConfig) (outcomes : List Bool) : Nat :=
  match parse_rules cfg with
  | Except.error _ => 0
  | Except.ok _ => cyclesRun outcomes

/-! ## Delivery transport (`post_new_ads` lines 182-190) -/

/-- Models `requests.Response.raise_for_status()`: raises `HTTPError`
exactly for 4xx and 5xx status codes. -/
def raiseForStatus (status : Nat) : Except Nat Unit :=
  if 400 ≤ status ∧ status < 600 then Except.error status else Except.ok ()

/-- Observable outcome of delivering one ad: how many HTTP requests were
made, which sleeps were performed (seconds), and whether the code returned
normally or raised `HTTPError` with the offending status. -/
structure SendOutcome where
  requestCount : Nat
  sleepsSec : List Nat
  result : Except Nat Unit
  deriving Repr

/-- The per-ad delivery attempt of `post_new_ads` (lines 183-190); `first`
and `retry` are the status codes the transport returns for the first and
(when made) second request:

    response = requests.get(url)
    if response.status_code == 429:
        time.sleep(60)
        response = requests.get(url)
    response.raise_for_status()
-/
def sendWithRetry (first retry : Nat) : SendOutcome :=
  if first = 429 then
    { requestCount := 2, sleepsSec := [60], result := raiseForStatus retry }
  else
    { requestCount := 1, sleepsSec := [], result := raiseForStatus first }

/-! ## MarkdownV2 text (`Ad._get_text`, `Ad._markdown_escape`) -/

/-- The translation table of `Ad._markdown_escape` (aparts.py lines 86-107),
entry order as in the source. -/
def mdTable : List (Char × Str) :=
  [('\\', ['\\', '\\']), ('_', ['\\', '_']), ('*', ['\\', '*']),
   ('[', ['\\', '[']), (']', ['\\', ']']), ('(', ['\\', '(']),
   (')', ['\\', ')']), ('~', ['\\', '~']), ('\x60', ['\\', '\x60']),
   ('>', ['\\', '>']), ('#', ['\\', '#']), ('+', ['\\', '+']),
   ('-', ['\\', '-']), ('=', ['\\', '=']), ('|', ['\\', '|']),
   ('\x7b', ['\\', '\x7b']), ('\x7d', ['\\', '\x7d']),
   ('.', ['\\', '.']), ('!', ['\\', '!'])]

/-- Per-character replacement of `str.translate`: mapped characters are
replaced by their table entry, unmapped characters pass through. -/
def mdRepl (c : Char) : Str :=
  match mdTable.lookup c with
  | some r => r
  | none => [c]

/-- `Ad._markdown_escape` (lines 86-107): `text.translate(str.maketrans {...})`. -/
def mdEscape (s : Str) : Str := s.flatMap mdRepl

/-- The MarkdownV2-special characters, as listed by the spec (the keys of
`mdTable`). -/
def specialChars : List Char :=
  ['\\', '_', '*', '[', ']', '(', ')', '~', '\x60', '>', '#', '+', '-',
   '=', '|', '\x7b', '\x7d', '.', '!']

/-- Spec-side characterization of the escaping: each special character is
prefixed with a backslash, every other character is kept as is. -/
def escapeSpec (s : Str) : Str :=
  s.flatMap (fun c => if c ∈ specialChars then ['\\', c] else [c])

/-- `Ad._get_text` (lines 77-84).  `datetime.isoformat` is an external
library call, passed in as `isofmt`; the f-string becomes explicit
concatenation.  Title, price and the two timestamps go through
`_markdown_escape`; the URL and the highlights string are inserted raw. -/
def getText (isofmt : Int → Str) (ad : Ad) : Str :=
  "\n[".data ++ mdEscape ad.title ++ "](".data ++ ad.url
    ++ ")\n💰 *".data ++ mdEscape ad.price
    ++ "*\n➕ `".data ++ mdEscape (isofmt ad.created)
    ++ "`\n🔄 `".data ++ mdEscape (isofmt ad.refreshed)
    ++ "`\n\n".data ++ ad.highlights

/-! ## Delivery payload (`Ad.to_send_query`, `Ad._get_media_json`)

`urllib.parse.quote` and `json.dumps` are injective serializations done by
external libraries; the model keeps the structured payload each of the
three Bot API queries carries. -/

/-- The constant `parse_mode=MarkdownV2` every query sets. -/
def mdv2 : Str := "MarkdownV2".data

/-- One element of the `sendMediaGroup` media array. -/
structure MediaItem where
  media : Str
  caption : Option Str
  parseMode : Option Str
  deriving DecidableEq, Repr

/-- The `{'type': 'photo', 'media': photo_url}` dict appended per photo. -/
def mkMediaItem (u : Str) : MediaItem :=
  { media := u, caption := none, parseMode := none }

/-- `Ad._get_media_json` (lines 66-75): iterate over the photo URLs — all
of them when there are at most 10, else the first 10 — then attach the
caption and parse mode to the first item.  (On an empty photo list the
source raises `IndexError` at `media[0]`; `to_send_query` only calls it
with at least two photos, and the model returns `[]` in that unreachable
case.) -/
def getMediaJson (caption : Str) (photos : List Str) : List MediaItem :=
  let sel := if photos.length ≤ 10 then photos else photos.take 10
  match sel.map mkMediaItem with
  | [] => []
  | m :: rest => { m with caption := some caption, parseMode := some mdv2 } :: rest

/-- The three Bot API queries `to_send_query` can produce. -/
inductive SendQuery where
  | sendMessage : Str → Str → Str → SendQuery
  | sendPhoto : Str → Str → Str → Str → SendQuery
  | sendMediaGroup : Str → List MediaItem → SendQuery
  deriving DecidableEq, Repr

/-- `Ad.to_send_query` (lines 54-64): choose the query shape by the number
of photo URLs — none, exactly one (`photo_urls[0]`), or several. -/
def toSendQuery (isofmt : Int → Str) (chat_id : Str) (ad : Ad) : SendQuery :=
  let text := getText isofmt ad
  match ad.photo_urls with
  | [] => SendQuery.sendMessage chat_id text mdv2
  | [p] => SendQuery.sendPhoto chat_id p text mdv2
  | ps => SendQuery.sendMediaGroup chat_id (getMediaJson text ps)

/-! ## Concrete sample ads used by witnesses -/

/-- An organic ad with refresh time 3 (below the sample watermark 5). -/
def oldOrganic : Ad :=
  { title := [], url := [], price := [], created := 0, refreshed := 3,
    is_promoted := false, photo_urls := [], highlights := [] }

/-- An organic ad with refresh time 9 (above the sample watermark 5). -/
def newOrganic : Ad :=
  { title := [], url := [], price := [], created := 0, refreshed := 9,
    is_promoted := false, photo_urls := [], highlights := [] }

/-- A promoted ad with refresh time 1 (below the sample watermark 5). -/
def oldPromoted : Ad :=
  { title := [], url := [], price := [], created := 0, refreshed := 1,
    is_promoted := true, photo_urls := [], highlights := [] }

/-- An ad carrying 12 photo URLs. -/
def photoAd : Ad :=
  { title := [], url := [], price := [], created := 0, refreshed := 0,
    is_promoted := false, photo_urls := List.replicate 12 ['u'],
    highlights := [] }

/-- A rule descriptor with an unrecognized type. -/
def bogusRule : RuleConfig :=
  { type := "bogus".data, key := [], path := [], matchType := [],
    valueMap := [] }

/-! ## Walker lemmas -/

/-- Every ad the collection loop keeps has refresh time strictly above the
watermark. -/
theorem collectNew_mem_gt (w : Int) :
    ∀ l : List Ad, ∀ a ∈ collectNew w l, w < a.refreshed := by
  intro l
  induction l with
  | nil => intro a ha; simp [collectNew] at ha
  | cons x rest ih =>
    intro a ha
    by_cases h1 : x.is_promoted = false ∧ x.refreshed ≤ w
    · simp [collectNew, if_pos h1] at ha
    · by_cases h2 : w < x.refreshed
      · rw [collectNew, if_neg h1, if_pos h2] at ha
        rcases List.mem_cons.mp ha with rfl | ha'
        · exact h2
        · exact ih a ha'
      · rw [collectNew, if_neg h1, if_neg h2] at ha
        exact ih a ha

/-- Once the loop reaches a stopping organic ad, nothing after it matters. -/
theorem collectNew_stop (w : Int) (a : Ad) (ha : a.is_promoted = false)
    (hr : a.refreshed ≤ w) :
    ∀ xs ys zs : List Ad, collectNew w (xs ++ a :: ys) = collectNew w (xs ++ a :: zs) := by
  intro xs
  induction xs with
  | nil =>
    intro ys zs
    simp only [List.nil_append, collectNew,
      if_pos (show a.is_promoted = false ∧ a.refreshed ≤ w from ⟨ha, hr⟩)]
  | cons x xs ih =>
    intro ys zs
    simp only [List.cons_append, collectNew, List.append_eq]
    rw [ih ys zs]

/-- Pages after the first page containing a stopping ad are never fetched. -/
theorem pagesFetched_stop (w : Int) (pg : List Ad) (hs : hasStop w pg = true) :
    ∀ front back : List (List Ad),
      pagesFetched w (front ++ pg :: back) = pagesFetched w (front ++ [pg]) := by
  intro front
  induction front with
  | nil => intro back; simp [pagesFetched, hs]
  | cons f fs ih =>
    intro back
    simp only [List.cons_append, pagesFetched, List.append_eq]
    rw [ih back]

/-- The collected candidates are a sublist of the source stream. -/
theorem collectNew_sublist (w : Int) (l : List Ad) :
    List.Sublist (collectNew w l) l := by
  induction l with
  | nil => simp [collectNew]
  | cons a rest ih =>
    simp only [collectNew]
    by_cases h1 : a.is_promoted = false ∧ a.refreshed ≤ w
    · rw [if_pos h1]; exact List.nil_sublist _
    · rw [if_neg h1]
      by_cases h2 : w < a.refreshed
      · rw [if_pos h2]; exact List.Sublist.cons₂ a ih
      · rw [if_neg h2]; exact List.Sublist.cons a ih

/-! ## Watermark lemmas -/

/-- Within one cycle, the write trace prefixed with the entry watermark is a
strictly increasing chain, and its last element is the watermark held at
loop exit. -/
theorem deliverRun_chain (ads : List Ad) : ∀ w : Int,
    List.Chain' (· < ·) (w :: (deliverRun w ads).2) ∧
    (w :: (deliverRun w ads).2).getLast? = some (deliverRun w ads).1 := by
  induction ads with
  | nil => intro w; exact ⟨List.chain'_singleton w, rfl⟩
  | cons a rest ih =>
    intro w
    by_cases h : w < a.refreshed
    · obtain ⟨hc, hl⟩ := ih a.refreshed
      constructor
      · simp only [deliverRun, if_pos h]
        exact List.chain'_cons.mpr ⟨h, hc⟩
      · simp only [deliverRun, if_pos h]
        rw [List.getLast?_cons_cons]
        exact hl
    · simp only [deliverRun, if_neg h]
      exact ih w

/-- Glue two strictly increasing chains at their shared endpoint. -/
theorem chain_append_point {w1 : Int} {l1 l2 : List Int}
    (h1 : List.Chain' (· < ·) l1) (hlast : l1.getLast? = some w1)
    (h2 : List.Chain' (· < ·) (w1 :: l2)) :
    List.Chain' (· < ·) (l1 ++ l2) := by
  apply List.Chain'.append h1 (List.chain'_cons'.mp h2).2
  intro x hx y hy
  rw [hlast] at hx
  have hx1 : w1 = x := Option.mem_some_iff.mp hx
  subst hx1
  exact (List.chain'_cons'.mp h2).1 y hy

/-- Last element of glued traces. -/
theorem getLast?_glue {w1 f : Int} {l1 l2 : List Int}
    (hlast : l1.getLast? = some w1) (hl2 : (w1 :: l2).getLast? = some f) :
    (l1 ++ l2).getLast? = some f := by
  cases l2 with
  | nil =>
    have hwf : w1 = f := by simpa using hl2
    subst hwf
    simpa using hlast
  | cons y ys =>
    rw [List.getLast?_cons_cons] at hl2
    rw [List.getLast?_append_cons]
    exact hl2

/-- Across any sequence of cycles, the full write trace prefixed with the
initial watermark is a strictly increasing chain ending at the final
watermark. -/
theorem runCycles_inv (cs : List (List Ad)) : ∀ w : Int,
    List.Chain' (· < ·) (w :: (runCycles w cs).2) ∧
    (w :: (runCycles w cs).2).getLast? = some (runCycles w cs).1 := by
  induction cs with
  | nil => intro w; exact ⟨List.chain'_singleton w, rfl⟩
  | cons ads rest ih =>
    intro w
    obtain ⟨dc, dl⟩ := deliverRun_chain ads w
    obtain ⟨rc, rl⟩ := ih (deliverRun w ads).1
    constructor
    · show List.Chain' (· < ·)
        (w :: ((deliverRun w ads).2 ++ (runCycles (deliverRun w ads).1 rest).2))
      rw [← List.cons_append]
      exact chain_append_point dc dl rc
    · show (w :: ((deliverRun w ads).2 ++
          (runCycles (deliverRun w ads).1 rest).2)).getLast? =
        some (runCycles (deliverRun w ads).1 rest).1
      rw [← List.cons_append]
      exact getLast?_glue dl rl

/-! ## Claim theorems for the walker, delivery order, watermark and loop -/

/-- C3: an organic ad with refresh time at or below the watermark is never
collected (every collected ad satisfies `w < refreshed`); the walk halts at
the first such organic ad in source order, so entries after it are never
consumed (the collection result does not depend on them) and no page after
the page containing it is fetched. -/
theorem organic_stop_walk (w : Int) :
    (∀ l : List Ad, ∀ a ∈ collectNew w l, w < a.refreshed) ∧
    (∀ xs ys zs : List Ad, ∀ a : Ad, a.is_promoted = false → a.refreshed ≤ w →
      collectNew w (xs ++ a :: ys) = collectNew w (xs ++ a :: zs)) ∧
    (∀ front : List (List Ad), ∀ pg : List Ad, ∀ back : List (List Ad),
      hasStop w pg = true →
      pagesFetched w (front ++ pg :: back) = pagesFetched w (front ++ [pg])) :=
  ⟨collectNew_mem_gt w,
   fun xs ys zs a ha hr => collectNew_stop w a ha hr xs ys zs,
   fun front pg back hs => pagesFetched_stop w pg hs front back⟩

/-- Witness for `organic_stop_walk` at watermark 5 with a collected ad of
refresh time 9 and a stopping organic ad of refresh time 3. -/
theorem organic_stop_walk_witness :
    ((5 : Int) < newOrganic.refreshed) ∧
    collectNew 5 [oldOrganic, newOrganic] = collectNew 5 [oldOrganic] ∧
    pagesFetched 5 [[oldOrganic], [newOrganic]] = pagesFetched 5 [[oldOrganic]] := by
  refine ⟨?_, ?_, ?_⟩
  · exact (organic_stop_walk 5).1 [newOrganic] newOrganic (by decide)
  · exact (organic_stop_walk 5).2.1 [] [newOrganic] [] oldOrganic rfl (by decide)
  · exact (organic_stop_walk 5).2.2 [] [oldOrganic] [[newOrganic]] (by decide)

/-- C4: a promoted ad with refresh time at or below the watermark is
skipped — not collected and not a stop signal — and the walk continues
over the remaining ads and pages exactly as if the ad were absent. -/
theorem promoted_skip (w : Int) (a : Ad) (rest : List Ad) (pg : List Ad)
    (pgs : List (List Ad)) (hp : a.is_promoted = true) (hr : a.refreshed ≤ w) :
    collectNew w (a :: rest) = collectNew w rest ∧
    hasStop w (a :: pg) = hasStop w pg ∧
    pagesFetched w ((a :: pg) :: pgs) = pagesFetched w (pg :: pgs) := by
  have h1 : ¬(a.is_promoted = false ∧ a.refreshed ≤ w) := by simp [hp]
  have h2 : ¬(w < a.refreshed) := not_lt.mpr hr
  have hstop : hasStop w (a :: pg) = hasStop w pg := by simp [hasStop, hp]
  refine ⟨?_, hstop, ?_⟩
  · simp only [collectNew, if_neg h1, if_neg h2]
  · simp only [pagesFetched, hstop]

/-- Witness for `promoted_skip`: a promoted ad with refresh time 1 under
watermark 5 is transparent to collection, stopping and page fetching. -/
theorem promoted_skip_witness :
    collectNew 5 [oldPromoted, newOrganic] = collectNew 5 [newOrganic] ∧
    hasStop 5 [oldPromoted] = hasStop 5 [] ∧
    pagesFetched 5 [[oldPromoted], [newOrganic]] = pagesFetched 5 [[], [newOrganic]] :=
  promoted_skip 5 oldPromoted [newOrganic] [] [[newOrganic]] rfl (by decide)

/-- C2 counterexample: with watermark 0 and source stream
`[promoted (refresh 1), organic (refresh 9)]` — a promoted ad resurfaced
above a fresher organic ad, exactly the interleaving the claim allows —
both ads are collected and delivery order is `[organic 9, promoted 1]`,
which is not ascending in refresh time. -/
theorem delivery_ascending_cx :
    ¬ List.Pairwise (fun a b : Ad => a.refreshed < b.refreshed)
      (deliveryOrder 0 [oldPromoted, newOrganic]) := by decide

/-- C2 amended: delivery order is the reverse of collection (source)
order; when the source stream is strictly descending in refresh time — in
particular when no promoted ad with an out-of-order refresh time is
interleaved — the delivered ads are strictly oldest-refresh-first. -/
theorem delivery_reverse_of_descending (w : Int) (l : List Ad)
    (hdesc : List.Pairwise (fun a b : Ad => b.refreshed < a.refreshed) l) :
    deliveryOrder w l = (collectNew w l).reverse ∧
    List.Pairwise (fun a b : Ad => a.refreshed < b.refreshed) (deliveryOrder w l) := by
  refine ⟨rfl, ?_⟩
  rw [deliveryOrder, List.pairwise_reverse]
  exact hdesc.sublist (collectNew_sublist w l)

/-- Witness for `delivery_reverse_of_descending` on a strictly descending
two-ad stream. -/
theorem delivery_reverse_of_descending_witness :
    deliveryOrder 5 [newOrganic, oldOrganic] =
      (collectNew 5 [newOrganic, oldOrganic]).reverse ∧
    List.Pairwise (fun a b : Ad => a.refreshed < b.refreshed)
      (deliveryOrder 5 [newOrganic, oldOrganic]) :=
  delivery_reverse_of_descending 5 [newOrganic, oldOrganic] (by decide)

/-- C5: across every sequence of poll cycles (arbitrary delivered ad lists,
which also covers cycles aborted mid-delivery), the sequence of values
written to the watermark store, prefixed with the initial watermark, is
strictly increasing: a write happens only when the delivered ad's refresh
time strictly exceeds the currently-held watermark, and no write ever
decreases the stored value. -/
theorem watermark_chain (w : Int) (cycles : List (List Ad)) :
    List.Chain' (· < ·) (w :: (runCycles w cycles).2) :=
  (runCycles_inv cycles w).1

/-- C6 counterexample: schedule two cycles where the first raises a
transport error.  The claim says the error aborts only the current cycle,
so both cycles would start; the code's uncaught exception terminates the
process after the first. -/
theorem loop_error_terminates_cx :
    cyclesRun [false, true] = 1 ∧ cyclesRun [false, true] ≠ 2 := by decide

/-- C6 amended: an uncaught error in `post_new_ads` (transport errors
included) propagates out of the `while True` loop and terminates the
process: exactly the cycles before the first failing cycle, plus the
failing cycle itself, ever start, and no cycle after it runs. -/
theorem loop_error_terminates (pre rest : List Bool) (h : ∀ b ∈ pre, b = true) :
    cyclesRun (pre ++ false :: rest) = pre.length + 1 := by
  induction pre with
  | nil => simp [cyclesRun]
  | cons b tl ih =>
    have hb : b = true := h b (List.mem_cons_self b tl)
    subst hb
    have ih' := ih fun x hx => h x (List.mem_cons_of_mem _ hx)
    simp [cyclesRun, ih']
    omega

/-- Witness for `loop_error_terminates`: one good cycle, then a failing
one, then a scheduled cycle that never runs. -/
theorem loop_error_terminates_witness : cyclesRun [true, false, true] = 2 := by
  have h := loop_error_terminates [true] [true] (by simp)
  simpa using h

/-! ## Claim theorems for the rule engine -/

/-- C1: when every configured rule extracts successfully, the engine first
concatenates the per-rule tag strings in configuration order
(`concatHighlights`), then the string stored on the `Ad` is that
concatenation deduplicated with set semantics: it holds exactly the
characters of the concatenation, each exactly once (`''.join(set(...))`
iterates the set in an unspecified order, so only these order-independent
facts are claimed). -/
theorem engine_dedup_spec (rules : List Rule) (d : OlxDoc) (cs : Str)
    (h : concatHighlights rules d = Except.ok cs) :
    ∃ hs : Str, adHighlights rules d = Except.ok hs ∧
      hs.Nodup ∧ ∀ c : Char, c ∈ hs ↔ c ∈ cs := by
  refine ⟨cs.dedup, ?_, List.nodup_dedup cs, fun c => List.mem_dedup⟩
  rw [adHighlights, h]
  rfl

/-- Witness for `engine_dedup_spec`: a single attribute rule emitting the
tag string `aa`; the stored highlight string is its one-character dedup. -/
theorem engine_dedup_spec_witness :
    ∃ hs : Str,
      adHighlights [Rule.param "k".data [("v".data, "aa".data)]]
        { params := [{ key := "k".data, normalizedValue := NormValue.scalar "v".data }],
          root := Doc.obj [] } = Except.ok hs ∧
      hs.Nodup ∧ ∀ c : Char, c ∈ hs ↔ c ∈ "aa".data :=
  engine_dedup_spec _ _ "aa".data rfl

/-- Helper: a lookup over a table none of whose keys matches returns
nothing. -/
theorem lookup_eq_none_of_beq_false {c : Char} :
    ∀ t : List (Char × Str), (∀ p ∈ t, (c == p.1) = false) → t.lookup c = none := by
  intro t
  induction t with
  | nil => intro _; rfl
  | cons p t ih =>
    intro h
    obtain ⟨k, v⟩ := p
    have hk := h (k, v) (List.mem_cons_self _ _)
    simp only [List.lookup]
    rw [hk]
    exact ih fun q hq => h q (List.mem_cons_of_mem _ hq)

/-- The keys of the escape table are exactly the special characters. -/
theorem mdTable_keys_special : ∀ p ∈ mdTable, p.1 ∈ specialChars := by decide

/-- The table-driven per-character replacement of `str.translate` agrees
with the per-character characterization: specials get a backslash prefix,
everything else passes through. -/
theorem mdRepl_eq (c : Char) :
    mdRepl c = if c ∈ specialChars then ['\\', c] else [c] := by
  by_cases h : c ∈ specialChars
  · rw [if_pos h]
    simp only [specialChars] at h
    fin_cases h <;> rfl
  · rw [if_neg h]
    have hb : ∀ p ∈ mdTable, (c == p.1) = false := fun p hp =>
      beq_eq_false_iff_ne.mpr fun hc => h (hc ▸ mdTable_keys_special p hp)
    simp only [mdRepl]
    rw [lookup_eq_none_of_beq_false mdTable hb]

/-- `Ad._markdown_escape` agrees with the spec-side characterization. -/
theorem mdEscape_eq_escapeSpec (s : Str) : mdEscape s = escapeSpec s := by
  simp only [mdEscape, escapeSpec]
  congr 1
  funext c
  exact mdRepl_eq c

/-- C10: the delivery text escapes every MarkdownV2-special character in
the title, the price text and both ISO timestamps by backslash-prefixing
it (all other characters pass through), while the URL and the highlight
string are inserted unescaped. -/
theorem text_escaping_shape (isofmt : Int → Str) (ad : Ad) :
    getText isofmt ad =
      "\n[".data ++ escapeSpec ad.title ++ "](".data ++ ad.url
        ++ ")\n💰 *".data ++ escapeSpec ad.price
        ++ "*\n➕ `".data ++ escapeSpec (isofmt ad.created)
        ++ "`\n🔄 `".data ++ escapeSpec (isofmt ad.refreshed)
        ++ "`\n\n".data ++ ad.highlights := by
  simp only [getText, mdEscape_eq_escapeSpec]

/-! ## Claim theorems for delivery transport and payload -/

/-- C7: when the first response to a delivery is a rate-limit (429), the
driver sleeps a fixed 60 seconds and retries exactly once (two requests in
total, even if the retry is itself a 429); if the retry's status is an
HTTP error (4xx/5xx), the failure is raised — it propagates and is fatal
for the cycle — and it is swallowed in no case in which `raise_for_status`
would raise. -/
theorem rate_limit_retry_once (first retry : Nat) (h : first = 429) :
    (sendWithRetry first retry).requestCount = 2 ∧
    (sendWithRetry first retry).sleepsSec = [60] ∧
    (400 ≤ retry ∧ retry < 600 →
      (sendWithRetry first retry).result = Except.error retry) ∧
    (¬(400 ≤ retry ∧ retry < 600) →
      (sendWithRetry first retry).result = Except.ok ()) := by
  subst h
  refine ⟨rfl, rfl, fun hr => ?_, fun hr => ?_⟩
  · show raiseForStatus retry = Except.error retry
    rw [raiseForStatus, if_pos hr]
  · show raiseForStatus retry = Except.ok ()
    rw [raiseForStatus, if_neg hr]

/-- Witness for `rate_limit_retry_once`: both requests return 429; the 60s
backoff happens, exactly one retry is made, and the failure is raised. -/
theorem rate_limit_retry_once_witness :
    (sendWithRetry 429 429).requestCount = 2 ∧
    (sendWithRetry 429 429).sleepsSec = [60] ∧
    (sendWithRetry 429 429).result = Except.error 429 := by
  obtain ⟨h1, h2, h3, -⟩ := rate_limit_retry_once 429 429 rfl
  exact ⟨h1, h2, h3 (by decide)⟩

/-- Helper: the media list built by `_get_media_json` for at least one
photo — the first item carries the caption and parse mode, the tail is the
next at-most-9 photos as bare items. -/
theorem getMediaJson_eq (caption : Str) (p1 : Str) (rest : List Str) :
    getMediaJson caption (p1 :: rest) =
      ({ media := p1, caption := some caption, parseMode := some mdv2 } : MediaItem)
        :: (rest.take 9).map mkMediaItem := by
  have hsel : (if (p1 :: rest).length ≤ 10 then p1 :: rest else (p1 :: rest).take 10)
      = (p1 :: rest).take 10 := by
    by_cases hlen : (p1 :: rest).length ≤ 10
    · rw [if_pos hlen, List.take_of_length_le hlen]
    · rw [if_neg hlen]
  have ht : (p1 :: rest).take 10 = p1 :: rest.take 9 := rfl
  simp only [getMediaJson]
  rw [hsel, ht]
  simp [mkMediaItem]

/-- C8: the payload shape is chosen solely by the photo count — zero
photos give a text query, exactly one gives a single-photo query with the
text as caption, and two or more give a media-group query whose item list
is capped at 10 items covering the first ten photo URLs, with the caption
(and parse mode) attached to the first item only. -/
theorem payload_shape_by_photo_count (isofmt : Int → Str) (cid : Str) (ad : Ad) :
    (ad.photo_urls.length = 0 →
      toSendQuery isofmt cid ad = SendQuery.sendMessage cid (getText isofmt ad) mdv2) ∧
    (∀ p, ad.photo_urls = [p] →
      toSendQuery isofmt cid ad = SendQuery.sendPhoto cid p (getText isofmt ad) mdv2) ∧
    (2 ≤ ad.photo_urls.length →
      ∃ items : List MediaItem,
        toSendQuery isofmt cid ad = SendQuery.sendMediaGroup cid items ∧
        items.length = min ad.photo_urls.length 10 ∧
        items.map MediaItem.media = ad.photo_urls.take 10 ∧
        ∃ h0 tl, items = h0 :: tl ∧ h0.caption = some (getText isofmt ad) ∧
          h0.parseMode = some mdv2 ∧ ∀ it ∈ tl, it.caption = none) := by
  refine ⟨?_, ?_, ?_⟩
  · intro hlen
    have he : ad.photo_urls = [] := List.length_eq_zero.mp hlen
    simp [toSendQuery, he]
  · intro p hp
    simp [toSendQuery, hp]
  · intro h2
    obtain ⟨p1, rest1, h1⟩ : ∃ p1 rest1, ad.photo_urls = p1 :: rest1 := by
      cases hml : ad.photo_urls with
      | nil => rw [hml] at h2; simp at h2
      | cons q r => exact ⟨q, r, rfl⟩
    obtain ⟨p2, rest2, hr2⟩ : ∃ p2 rest2, rest1 = p2 :: rest2 := by
      cases hml : rest1 with
      | nil => rw [h1, hml] at h2; simp at h2
      | cons q r => exact ⟨q, r, rfl⟩
    subst hr2
    refine ⟨({ media := p1, caption := some (getText isofmt ad), parseMode := some mdv2 }
        : MediaItem) :: (((p2 :: rest2).take 9).map mkMediaItem), ?_, ?_, ?_,
      _, _, rfl, rfl, rfl, ?_⟩
    · simp only [toSendQuery, h1]
      rw [getMediaJson_eq]
    · simp only [List.length_cons, List.length_map, List.length_take, h1]
      omega
    · rw [h1]
      have ht : (p1 :: p2 :: rest2).take 10 = p1 :: (p2 :: rest2).take 9 := rfl
      rw [ht]
      have hcomp : MediaItem.media ∘ mkMediaItem = id := funext fun u => rfl
      simp [mkMediaItem, hcomp]
    · intro it hit
      obtain ⟨u, hu, rfl⟩ := List.mem_map.mp hit
      rfl

/-- Witness for `payload_shape_by_photo_count`: an ad with 12 photos gets
a media-group payload of exactly 10 items with the caption on the first. -/
theorem payload_shape_by_photo_count_witness :
    2 ≤ photoAd.photo_urls.length ∧
    ∃ items : List MediaItem,
      toSendQuery (fun _ => []) ['c'] photoAd = SendQuery.sendMediaGroup ['c'] items ∧
      items.length = min photoAd.photo_urls.length 10 ∧
      items.map MediaItem.media = photoAd.photo_urls.take 10 ∧
      ∃ h0 tl, items = h0 :: tl ∧ h0.caption = some (getText (fun _ => []) photoAd) ∧
        h0.parseMode = some mdv2 ∧ ∀ it ∈ tl, it.caption = none :=
  ⟨by decide, (payload_shape_by_photo_count (fun _ => []) ['c'] photoAd).2.2 (by decide)⟩

/-- Helper: if any descriptor in the remaining configuration is bad, the
parse loop raises no matter what was accumulated so far. -/
theorem parseGo_error_of_bad (rc : RuleConfig)
    (hbad : (rc.type ≠ "param".data ∧ rc.type ≠ "prop".data) ∨
      (rc.type = "prop".data ∧ rc.matchType ≠ "contains".data ∧
        rc.matchType ≠ "exact".data)) :
    ∀ cfg : List RuleConfig, rc ∈ cfg → ∀ acc : List Rule,
      ∃ e, parseGo cfg acc = Except.error e := by
  intro cfg
  induction cfg with
  | nil => intro h; cases h
  | cons hd tl ih =>
    intro hmem acc
    rcases List.mem_cons.mp hmem with rfl | hmem'
    · rcases hbad with ⟨ht1, ht2⟩ | ⟨hp, hm1, hm2⟩
      · exact ⟨_, by simp only [parseGo]; rw [if_neg ht1, if_neg ht2]⟩
      · have hinit : propRuleInit rc.path rc.matchType rc.valueMap =
            Except.error PyErr.attributeError := by
          rw [propRuleInit, if_neg hm1, if_neg hm2]
        have hne : rc.type ≠ "param".data := by
          rw [hp]; decide
        refine ⟨PyErr.attributeError, ?_⟩
        simp only [parseGo]
        rw [if_neg hne, if_pos hp, hinit]
    · by_cases hp1 : hd.type = "param".data
      · obtain ⟨e, he⟩ := ih hmem' (acc ++ [Rule.param hd.key hd.valueMap])
        exact ⟨e, by simp only [parseGo]; rw [if_pos hp1]; exact he⟩
      · by_cases hp2 : hd.type = "prop".data
        · cases hpr : propRuleInit hd.path hd.matchType hd.valueMap with
          | ok r =>
            obtain ⟨e, he⟩ := ih hmem' (acc ++ [r])
            exact ⟨e, by simp only [parseGo]; rw [if_neg hp1, if_pos hp2, hpr]; exact he⟩
          | error e =>
            exact ⟨e, by simp only [parseGo]; rw [if_neg hp1, if_pos hp2, hpr]⟩
        · exact ⟨_, by simp only [parseGo]; rw [if_neg hp1, if_neg hp2]⟩

/-- C9: a configuration containing a descriptor with an unrecognized rule
type, or a path (`prop`) rule with an unrecognized comparator, makes
`parse_rules` raise; since the configuration is parsed at module import
time, before the main loop, the process runs zero poll cycles. -/
theorem bad_rule_config_fails_fast (cfg : List RuleConfig) (rc : RuleConfig)
    (hmem : rc ∈ cfg)
    (hbad : (rc.type ≠ "param".data ∧ rc.type ≠ "prop".data) ∨
      (rc.type = "prop".data ∧ rc.matchType ≠ "contains".data ∧
        rc.matchType ≠ "exact".data)) :
    (∃ e, parse_rules cfg = Except.error e) ∧
    ∀ outcomes : List Bool, programCyclesRun cfg outcomes = 0 := by
  have hlen : ¬(cfg.length = 0) := by
    cases cfg
    · cases hmem
    · simp
  obtain ⟨e, he⟩ := parseGo_error_of_bad rc hbad cfg hmem []
  have hpr : parse_rules cfg = Except.error e := by
    rw [parse_rules, if_neg hlen]; exact he
  refine ⟨⟨e, hpr⟩, fun outcomes => ?_⟩
  simp [programCyclesRun, hpr]

/-- Witness for `bad_rule_config_fails_fast`: a single descriptor of type
`bogus` kills the process before any polling. -/
theorem bad_rule_config_fails_fast_witness :
    (∃ e, parse_rules [bogusRule] = Except.error e) ∧
    ∀ outcomes : List Bool, programCyclesRun [bogusRule] outcomes = 0 :=
  bad_rule_config_fails_fast _ _ (List.mem_cons_self _ _) (Or.inl (by decide))
